import Mathlib

/-!
Shallow embedding of the two scripts of the snakebite-community-probe
repository (`scripts/validate.py` and `scripts/aggregate.py`) and proofs
about the claims of its specification.

JSON values (as produced by `json.loads`) are modelled by `JVal`; JSON
number literals are modelled as integers.  A parsed JSON object is an
association list (a parsed Python dict has distinct keys, so first-match
lookup agrees with dict lookup).  A physical input line is modelled by
`PLine`: blank (whitespace only), malformed (a line `json.loads` raises
on), or parsed to a value.
-/

namespace Snakebite

inductive JVal where
  | jnull
  | jbool (b : Bool)
  | jnum (n : Int)
  | jstr (s : String)
  | jarr (elems : List JVal)
  | jobj (fields : List (String × JVal))

abbrev Row := List (String × JVal)

inductive PLine where
  | blank
  | malformed
  | parsed (v : JVal)

/-- `dict.get k`: the value stored under `k`, if any. -/
def jget (row : Row) (k : String) : Option JVal :=
  (row.find? (fun p => p.1 == k)).map (fun p => p.2)

/-- `row.get(k)` in Python returns `None` when the key is absent. -/
def pyGet (row : Row) (k : String) : JVal :=
  (jget row k).getD .jnull

/-- Python truthiness of a JSON-decoded value. -/
def pyTruthy : JVal → Bool
  | .jnull => false
  | .jbool b => b
  | .jnum n => !(n == 0)
  | .jstr s => !(s == "")
  | .jarr xs => !xs.isEmpty
  | .jobj fs => !fs.isEmpty

/-- Python `a or b`. -/
def pyOr (a b : JVal) : JVal :=
  if pyTruthy a then a else b

/-- Python's `repr` of a string (quote-escaping subtleties elided). -/
def pyReprStr (s : String) : String :=
  String.mk ('\'' :: s.toList ++ ['\''])

/-- Python's `repr` of a JSON-decoded value. -/
def pyRepr : JVal → String
  | .jnull => "None"
  | .jbool true => "True"
  | .jbool false => "False"
  | .jnum n => toString n
  | .jstr s => pyReprStr s
  | .jarr xs => "[" ++ String.intercalate ", " (xs.attach.map (fun p => pyRepr p.1)) ++ "]"
  | .jobj fs =>
      "\x7b" ++
        String.intercalate ", "
          (fs.attach.map (fun p => pyReprStr p.1.1 ++ ": " ++ pyRepr p.1.2)) ++ "\x7d"
decreasing_by
  · obtain ⟨v, hv⟩ := p
    have h1 : sizeOf v < sizeOf xs := List.sizeOf_lt_of_mem hv
    simp
    omega
  · obtain ⟨⟨a, b⟩, hq⟩ := p
    have h1 : sizeOf (a, b) < sizeOf fs := List.sizeOf_lt_of_mem hq
    simp at h1 ⊢
    omega

/-- Python's `str` of a JSON-decoded value. -/
def pyStr : JVal → String
  | .jstr s => s
  | v => pyRepr v

/-- ASCII whitespace as recognised by `str.strip()` / `\s`
(further Unicode whitespace is outside the model). -/
def isPySpace (c : Char) : Bool :=
  c == ' ' || c == '\t' || c == '\n' || c == '\r' || c == '\x0b' || c == '\x0c'

/-- Python `str.strip()`. -/
def pyStrip (s : String) : String :=
  String.mk (((s.toList.dropWhile isPySpace).reverse.dropWhile isPySpace).reverse)

/-- Python `str.lower()` (ASCII range). -/
def asciiLower (s : String) : String :=
  String.mk (s.toList.map (fun c =>
    if 'A' ≤ c && c ≤ 'Z' then Char.ofNat (c.toNat + 32) else c))

/-- Python `sub in s` (substring containment) on character lists. -/
def containsSubL (hay pat : List Char) : Bool :=
  match hay with
  | [] => pat.isEmpty
  | _ :: t => pat.isPrefixOf hay || containsSubL t pat

/-- Python `sub in s` on strings. -/
def containsSub (s pat : String) : Bool :=
  containsSubL s.toList pat.toList

/-- Stable insertion step: place `x` before the first `y` with `le x y`.
With `le x y := key y ≤ key x` this is one step of Python's stable
descending `sorted(..., reverse=True)`. -/
def insertStable (le : α → α → Bool) (x : α) : List α → List α
  | [] => [x]
  | y :: ys => if le x y then x :: y :: ys else y :: insertStable le x ys

/-- Stable sort (extensionally equal to Python's `sorted`, which is
stable for the comparison encoded in `le`). -/
def sortStable (le : α → α → Bool) : List α → List α
  | [] => []
  | x :: xs => insertStable le x (sortStable le xs)

/-! ## scripts/validate.py -/

/-- Keys that must never appear (`BANNED_KEYS`). -/
def BANNED_KEYS : List String :=
  ["source", "code", "prompt", "messages", "completion", "content", "input", "output"]

/-- A character matched by `[^\s:\"]` in `PATH_RE`. -/
def isClassChar (c : Char) : Bool :=
  !(isPySpace c) && c != ':' && c != '"'

/-- `p.split("/")[-1]` for the part of a `PATH_RE` match after its
leading slash. -/
def lastSeg (run : List Char) : List Char :=
  (run.reverse.takeWhile (fun c => c != '/')).reverse

/-- One left-to-right pass of `PATH_RE.sub(repl, s)`.  Since `/` itself
lies in the character class, a match of `(/[^\s:\"]+)+` is exactly a `/`
followed by a maximal non-empty run of class characters; it is replaced
by `<path>/` followed by the text after the last `/` of the match.  The
fuel argument only certifies termination and never runs out when it
starts at the length of the list. -/
def pathSubF : Nat → List Char → List Char
  | 0, s => s
  | _ + 1, [] => []
  | fuel + 1, c :: rest =>
    if c == '/' && !(rest.takeWhile isClassChar).isEmpty then
      ('<' :: 'p' :: 'a' :: 't' :: 'h' :: '>' :: '/' :: lastSeg (rest.takeWhile isClassChar))
        ++ pathSubF fuel (rest.dropWhile isClassChar)
    else
      c :: pathSubF fuel rest

/-- `PATH_RE.sub(repl, s)` on a character list. -/
def pathSub (s : List Char) : List Char :=
  pathSubF s.length s

/-- `sanitize_error`: path replacement, then truncation at 2000
characters with an ellipsis appended. -/
def sanitize_error (s : String) : String :=
  let cs := pathSub s.toList
  if 2000 < cs.length then String.mk (cs.take 2000 ++ ['…']) else String.mk cs

/-- Sorted (ascending) list of strings, for failure messages that print
`sorted(...)`. -/
def sortStrings (l : List String) : List String :=
  sortStable (fun a b => decide (a ≤ b)) l

/-- `extra = set(row.keys()) - allowed_keys; if extra: raise`. -/
def checkExtra (row : Row) (allowed : List String) : Except String Unit :=
  let extra := (row.map (fun p => p.1)).filter (fun k => !allowed.contains k)
  if extra.isEmpty then .ok ()
  else .error ("extra keys not allowed: " ++ String.intercalate ", " (sortStrings extra))

/-- `lowered = {k.lower() ...}; if lowered & BANNED_KEYS: raise`. -/
def checkBanned (row : Row) : Except String Unit :=
  let hit := (row.map (fun p => asciiLower p.1)).filter (fun k => BANNED_KEYS.contains k)
  if hit.isEmpty then .ok ()
  else .error ("banned keys present: " ++ String.intercalate ", " (sortStrings hit))

/-- `model` must be a string that is non-empty after stripping. -/
def checkModel (row : Row) : Except String Unit :=
  match pyGet row "model" with
  | .jstr s => if pyStrip s == "" then .error "model must be non-empty string" else .ok ()
  | _ => .error "model must be non-empty string"

def isHexLowerChar (c : Char) : Bool :=
  ('0' ≤ c && c ≤ '9') || ('a' ≤ c && c ≤ 'f')

/-- `sha256` must be a string fully matching `[a-f0-9]{64}`. -/
def checkSha (row : Row) : Except String Unit :=
  match pyGet row "sha256" with
  | .jstr s =>
      if s.toList.length == 64 && s.toList.all isHexLowerChar then .ok ()
      else .error "sha256 must be 64 lowercase hex chars"
  | _ => .error "sha256 must be 64 lowercase hex chars"

/-- `syntax_valid_before` and `syntax_valid_after` must be booleans. -/
def checkBools (row : Row) : Except String Unit :=
  match pyGet row "syntax_valid_before", pyGet row "syntax_valid_after" with
  | .jbool _, .jbool _ => .ok ()
  | _, _ => .error "syntax_valid_before/after must be boolean"

/-- `fix_count` must be a non-negative int.  A JSON boolean passes this
check because Python's `bool` is a subclass of `int` (`True < 0` is
false). -/
def checkFixCount (row : Row) : Except String Unit :=
  match pyGet row "fix_count" with
  | .jnum n => if n < 0 then .error "fix_count must be non-negative int" else .ok ()
  | .jbool _ => .ok ()
  | _ => .error "fix_count must be non-negative int"

/-- Write a value under an existing key of a row (`row[k] = v`). -/
def setKey (row : Row) (k : String) (v : JVal) : Row :=
  row.map (fun p => if p.1 == k then (p.1, v) else p)

/-- One iteration of the sanitization loop for error field `k`: present
and non-null values must be strings and are rewritten in place. -/
def sanitizeKey (k : String) (row : Row) : Except String Row :=
  match jget row k with
  | none => .ok row
  | some .jnull => .ok row
  | some (.jstr s) => .ok (setKey row k (.jstr (sanitize_error s)))
  | some _ => .error (k ++ " must be string")

/-- The loop `for k in ("error_before", "error_after", "error")`. -/
def sanitizeErrors (row : Row) : Except String Row := do
  let row ← sanitizeKey "error_before" row
  let row ← sanitizeKey "error_after" row
  sanitizeKey "error" row

/-- `validate_row`: the checks in source order, stopping at the first
failure (the first `raise`). -/
def validate_row (row : Row) (allowed : List String) : Except String Row :=
  match checkExtra row allowed with
  | .error e => .error e
  | .ok _ =>
  match checkBanned row with
  | .error e => .error e
  | .ok _ =>
  match checkModel row with
  | .error e => .error e
  | .ok _ =>
  match checkSha row with
  | .error e => .error e
  | .ok _ =>
  match checkBools row with
  | .error e => .error e
  | .ok _ =>
  match checkFixCount row with
  | .error e => .error e
  | .ok _ => sanitizeErrors row

/-- The `FAIL` messages the validator's per-line `try`/`except` prints
for one physical line (the text of a `json.JSONDecodeError` is modelled
by the fixed string `"invalid json"`). -/
def lineMessages (allowed : List String) : PLine → List String
  | .blank => []
  | .malformed => ["invalid json"]
  | .parsed (.jobj row) =>
      match validate_row row allowed with
      | .ok _ => []
      | .error e => [e]
  | .parsed _ => ["row is not object"]

/-- Whether a physical line increments the validator's `bad` counter. -/
def lineFails (allowed : List String) (l : PLine) : Bool :=
  !(lineMessages allowed l).isEmpty

/-- `bad` after the loop: one increment per failing line. -/
def validatorBad (allowed : List String) (files : List (List PLine)) : Nat :=
  (files.map (fun f => f.countP (lineFails allowed))).sum

/-- `main` of scripts/validate.py as a function of the relevant state of
the world: whether the root resolves to an existing path, the allowed
key set of the external schema, and the lines of the `.jsonl` files
found under the root. -/
def validate_main (rootExists : Bool) (allowed : List String)
    (files : List (List PLine)) : Nat :=
  if !rootExists then 2
  else if files.isEmpty then 0
  else if validatorBad allowed files != 0 then 1 else 0

/-! ## scripts/aggregate.py -/

/-- `iter_rows`, applied to the concatenated line sequence of every
`.jsonl` file under the results root: blank lines, lines `json.loads`
raises on, and lines whose value is not an object are silently
skipped. -/
def iter_rows (lines : List PLine) : List Row :=
  lines.filterMap (fun l =>
    match l with
    | .parsed (.jobj row) => some row
    | _ => none)

/-- `str(r.get("model") or "unknown")`. -/
def modelKey (r : Row) : String :=
  pyStr (pyOr (pyGet r "model") (.jstr "unknown"))

/-- Append a row to the group of key `k`, creating the group at the end
on first encounter (insertion order of a `defaultdict`). -/
def addToGroup (acc : List (String × List Row)) (k : String) (r : Row) :
    List (String × List Row) :=
  match acc with
  | [] => [(k, [r])]
  | (k', rs) :: rest =>
      if k' == k then (k', rs ++ [r]) :: rest else (k', rs) :: addToGroup rest k r

/-- `by_model`: groups in the order their keys were first encountered,
each group's rows in reading order. -/
def byModel (rows : List Row) : List (String × List Row) :=
  rows.foldl (fun acc r => addToGroup acc (modelKey r) r) []

/-- `err_class`: first-match-wins substring classification. -/
def err_class (s : String) : String :=
  if s == "" then ""
  else if containsSub s "IndentationError" then "IndentationError"
  else if containsSub s "SyntaxError" then "SyntaxError"
  else if containsSub s "TabError" then "TabError"
  else if containsSub s "EOL while scanning" || containsSub s "unexpected EOF" then "EOF"
  else "Other"

/-- `r.get("syntax_valid_before") is True`. -/
def beforeIsTrue (r : Row) : Bool :=
  match pyGet r "syntax_valid_before" with
  | .jbool true => true
  | _ => false

/-- `r.get("syntax_valid_before") is False`. -/
def beforeIsFalse (r : Row) : Bool :=
  match pyGet r "syntax_valid_before" with
  | .jbool false => true
  | _ => false

/-- `r.get("syntax_valid_after") is True`. -/
def afterIsTrue (r : Row) : Bool :=
  match pyGet r "syntax_valid_after" with
  | .jbool true => true
  | _ => false

/-- `str(r.get("error_before") or r.get("error") or "")`. -/
def errText (r : Row) : String :=
  pyStr (pyOr (pyOr (pyGet r "error_before") (pyGet r "error")) (.jstr ""))

/-- `errc[lbl] += 1` on a `Counter` kept as an association list in
first-seen order. -/
def bump (c : List (String × Nat)) (lbl : String) : List (String × Nat) :=
  match c with
  | [] => [(lbl, 1)]
  | (l, n) :: rest => if l == lbl then (l, n + 1) :: rest else (l, n) :: bump rest lbl

/-- The `errc` counter of one model group: rows whose
`syntax_valid_before` is exactly `True` are skipped, every other row is
tallied under `err_class` of its effective error text. -/
def errTally (rs : List Row) : List (String × Nat) :=
  rs.foldl (fun c r => if beforeIsTrue r then c else bump c (err_class (errText r))) []

/-- `Counter.most_common(3)`: stable descending sort by count, first
three entries. -/
def mostCommon3 (c : List (String × Nat)) : List (String × Nat) :=
  (sortStable (fun a b => decide (b.2 ≤ a.2)) c).take 3

/-- Python `int()` applied to a JSON-decoded value (`int` and `bool`
pass through, strings are parsed as optionally signed decimal numerals
with surrounding whitespace, everything else raises). -/
def pyInt : JVal → Except String Int
  | .jnull => .error "int() argument must not be None"
  | .jbool b => .ok (if b then 1 else 0)
  | .jnum n => .ok n
  | .jstr s =>
      let cs := ((s.toList.dropWhile isPySpace).reverse.dropWhile isPySpace).reverse
      let core := match cs with
        | '+' :: t => some t
        | '-' :: t => some t
        | t => some t
      match core with
      | some ds =>
          if !ds.isEmpty && ds.all (fun c => c.isDigit) then
            let mag : Int := ds.foldl (fun a c => a * 10 + (c.toNat - '0'.toNat)) 0
            .ok (if cs.head? == some '-' then -mag else mag)
          else .error ("invalid literal for int(): " ++ s)
      | none => .error ("invalid literal for int(): " ++ s)
  | .jarr _ => .error "int() argument must not be a list"
  | .jobj _ => .error "int() argument must not be a dict"

/-- `int(r.get("fix_count") or 0)` for one row. -/
def fixCountOf (r : Row) : Except String Int :=
  pyInt (pyOr (pyGet r "fix_count") (.jnum 0))

/-- The per-model aggregate stored in `summary["models"]`.
`topErrorClassesBefore` holds the full counter, exactly as the source
stores `errc`; `most_common(3)` is applied for display only. -/
structure Stats where
  rows : Nat
  syntaxValidBefore : Nat
  syntaxValidAfter : Nat
  repaired : Nat
  avgFixCount : Rat
  topErrorClassesBefore : List (String × Nat)
deriving DecidableEq, Repr

/-- The loop body of `main` for one model group; the only statement that
can raise is the `int()` coercion of `fix_count`. -/
def groupStats (rs : List Row) : Except String Stats := do
  let total := rs.length
  let before_ok := rs.countP beforeIsTrue
  let after_ok := rs.countP afterIsTrue
  let repaired := rs.countP (fun r => beforeIsFalse r && afterIsTrue r)
  let fix_counts ← rs.mapM fixCountOf
  let avg_fix : Rat := if total == 0 then 0 else (fix_counts.sum : Rat) / (total : Rat)
  pure ⟨total, before_ok, after_ok, repaired, avg_fix, errTally rs⟩

/-- `sorted(by_model.items(), key=lambda kv: len(kv[1]), reverse=True)`:
Python's sort is stable, also with `reverse=True`. -/
def sortedGroups (rows : List Row) : List (String × List Row) :=
  sortStable (fun a b => decide (b.2.length ≤ a.2.length)) (byModel rows)

/-- The per-model section of the summary, in display order.  The `Except`
layer models an uncaught exception aborting the loop at the first group
it occurs in. -/
def aggregateModels (lines : List PLine) : Except String (List (String × Stats)) :=
  (sortedGroups (iter_rows lines)).mapM (fun g => (groupStats g.2).map (fun st => (g.1, st)))

structure Summary where
  totalRows : Nat
  models : List (String × Stats)
deriving DecidableEq, Repr

/-- `main` of scripts/aggregate.py up to the writing of the output files
(the generation timestamp and the rendered markdown/HTML are derived
from the same data and are outside the model). -/
def aggregate_main (lines : List PLine) : Except String Summary :=
  (aggregateModels lines).map (fun ms => ⟨(iter_rows lines).length, ms⟩)

/-- The process exit status: `main` returns 0; an uncaught exception
makes the interpreter exit with status 1. -/
def aggregate_exit (lines : List PLine) : Nat :=
  match aggregate_main lines with
  | .ok _ => 0
  | .error _ => 1

/-- First-encounter order of a list of keys (first occurrence kept). -/
def firstSeenAux (seen : List String) : List String → List String
  | [] => []
  | k :: t =>
      if k ∈ seen then firstSeenAux seen t
      else k :: firstSeenAux (seen ++ [k]) t

def firstSeen (ks : List String) : List String :=
  firstSeenAux [] ks

/-- Whether an `Except` computation raised. -/
def isError : Except String α → Bool
  | .error _ => true
  | .ok _ => false

/-- The raised message of an `Except` computation, if any. -/
def errOf : Except String α → Option String
  | .error e => some e
  | .ok _ => none

/-- The individual checks of `validate_row` in the order the source runs
them; claim C9 states that the message reported for a line is that of
the first failing one. -/
def claimedChecks (row : Row) (allowed : List String) : List (Option String) :=
  [errOf (checkExtra row allowed), errOf (checkBanned row), errOf (checkModel row),
   errOf (checkSha row), errOf (checkBools row), errOf (checkFixCount row),
   errOf (sanitizeErrors row)]

/-- The first failing check of a physical line, in the order of claim
C9: non-object line, extra keys, banned keys, field-shape checks,
error-field type. -/
def claimedFirstFailure (allowed : List String) : PLine → Option String
  | .blank => none
  | .malformed => some "invalid json"
  | .parsed (.jobj row) => (claimedChecks row allowed).findSome? id
  | .parsed _ => some "row is not object"

/-- `Counter` lookup: `errc[lbl]` with default 0. -/
def lookupCount (c : List (String × Nat)) (lbl : String) : Nat :=
  ((c.find? (fun p => p.1 == lbl)).map (fun p => p.2)).getD 0

instance : DecidableEq (Except String Stats) := fun a b =>
  match a, b with
  | .ok x, .ok y =>
      if h : x = y then isTrue (by rw [h]) else isFalse (by simp [h])
  | .error e, .error e' =>
      if h : e = e' then isTrue (by rw [h]) else isFalse (by simp [h])
  | .ok _, .error _ => isFalse (by simp)
  | .error _, .ok _ => isFalse (by simp)

/-! ## Claim C1: sanitization idempotence -/

theorem pathSubF_no_slash (fuel : Nat) (cs : List Char) (h : '/' ∉ cs) :
    pathSubF fuel cs = cs := by
  induction fuel generalizing cs with
  | zero => rfl
  | succ fuel ih =>
    cases cs with
    | nil => rfl
    | cons c rest =>
      have hc : c ≠ '/' := fun hc => h (hc ▸ List.mem_cons_self c rest)
      have hrest : '/' ∉ rest := fun hr => h (List.mem_cons_of_mem c hr)
      have hcond : (c == '/' && !(rest.takeWhile isClassChar).isEmpty) = false := by
        have : (c == '/') = false := beq_eq_false_iff_ne.mpr hc
        simp [this]
      simp only [pathSubF, hcond, Bool.false_eq_true, if_false, ih rest hrest]

theorem pathSub_no_slash (cs : List Char) (h : '/' ∉ cs) : pathSub cs = cs :=
  pathSubF_no_slash cs.length cs h

/-- C1.  The claim that `sanitize_error` is idempotent on every string is
false: a sanitized path placeholder still starts with `/` followed by
characters of the path character class, so a second pass replaces it
again.  Concretely `sanitize_error "/a" = "<path>/a"` while
`sanitize_error "<path>/a" = "<path><path>/a"`. -/
theorem c1_counterexample :
    sanitize_error (sanitize_error "/a") ≠ sanitize_error "/a" := by
  decide

/-- C1 (amended).  `sanitize_error` is idempotent on every input string
that contains no `/` character: the path pattern then never matches, and
the truncation pass is idempotent on its own. -/
theorem c1_sanitize_idempotent_no_slash (s : String) (h : '/' ∉ s.toList) :
    sanitize_error (sanitize_error s) = sanitize_error s := by
  have hmk : ∀ cs : List Char, (String.mk cs).toList = cs := fun _ => rfl
  have h1 : pathSub s.toList = s.toList := pathSub_no_slash s.toList h
  by_cases hl : 2000 < s.toList.length
  · have hs1 : sanitize_error s = String.mk (s.toList.take 2000 ++ ['…']) := by
      simp only [sanitize_error, h1, hl, if_true]
    have hlen : (s.toList.take 2000).length = 2000 := by
      simp only [List.length_take]
      omega
    have h2 : '/' ∉ (s.toList.take 2000 ++ ['…']) := by
      intro hmem
      rcases List.mem_append.mp hmem with h3 | h3
      · exact h (List.mem_of_mem_take h3)
      · simp at h3
    have h4 : pathSub (s.toList.take 2000 ++ ['…']) = s.toList.take 2000 ++ ['…'] :=
      pathSub_no_slash _ h2
    have h5 : 2000 < (s.toList.take 2000 ++ ['…']).length := by
      rw [List.length_append, hlen]
      simp
    rw [hs1, sanitize_error, hmk, h4, if_pos h5, List.take_left' hlen]
  · have hs1 : sanitize_error s = String.mk s.toList := by
      simp only [sanitize_error, h1, hl, if_false]
    rw [hs1, sanitize_error, hmk, h1, if_neg hl]

/-- C1 witness: the amended statement applied to the concrete slash-free
string `"abc"`. -/
theorem c1_witness :
    '/' ∉ "abc".toList ∧ sanitize_error (sanitize_error "abc") = sanitize_error "abc" :=
  ⟨by decide, c1_sanitize_idempotent_no_slash "abc" (by decide)⟩

/-! ## Claim C5: the banned-key check is independent of the allow-list -/

/-- C5.  A record containing a key whose lowercased name lies in
`BANNED_KEYS` is rejected by `validate_row` for every allowed-key set
that includes that key: if some other key is extra the extra-key check
raises first, otherwise the banned-key check raises. -/
theorem c5_banned_key_rejected (row : Row) (allowed : List String) (k : String) (v : JVal)
    (hkv : (k, v) ∈ row)
    (hban : BANNED_KEYS.contains (asciiLower k) = true)
    (hallow : allowed.contains k = true) :
    isError (validate_row row allowed) = true := by
  have hmem : asciiLower k ∈
      (row.map (fun p => asciiLower p.1)).filter (fun k0 => BANNED_KEYS.contains k0) :=
    List.mem_filter.mpr ⟨List.mem_map.mpr ⟨(k, v), hkv, rfl⟩, hban⟩
  have hb : isError (checkBanned row) = true := by
    by_cases hc :
        ((row.map (fun p => asciiLower p.1)).filter
          (fun k0 => BANNED_KEYS.contains k0)).isEmpty = true
    · rw [List.isEmpty_iff] at hc
      rw [hc] at hmem
      exact absurd hmem (List.not_mem_nil _)
    · rw [Bool.not_eq_true] at hc
      simp only [checkBanned, isError, hc, Bool.false_eq_true, if_false]
  cases h1 : checkExtra row allowed with
  | error e => simp [validate_row, h1, isError]
  | ok u =>
    cases h2 : checkBanned row with
    | error e => simp [validate_row, h1, h2, isError]
    | ok u2 => rw [h2] at hb; simp [isError] at hb

/-- C5 witness: the record `{"code": null}` is rejected although the
allow-list is exactly `["code"]`. -/
theorem c5_witness :
    ("code", JVal.jnull) ∈ ([("code", JVal.jnull)] : Row) ∧
    BANNED_KEYS.contains (asciiLower "code") = true ∧
    List.contains ["code"] "code" = true ∧
    isError (validate_row [("code", JVal.jnull)] ["code"]) = true :=
  ⟨List.mem_cons_self _ _, by decide, by decide,
    c5_banned_key_rejected [("code", JVal.jnull)] ["code"] "code" JVal.jnull
      (List.mem_cons_self _ _) (by decide) (by decide)⟩

/-! ## Claim C4: validator exit codes -/

theorem validatorBad_eq_zero_iff (allowed : List String) (files : List (List PLine)) :
    validatorBad allowed files = 0 ↔
      ∀ f ∈ files, ∀ l ∈ f, lineFails allowed l = false := by
  induction files with
  | nil => simp [validatorBad]
  | cons f fs ih =>
    simp only [validatorBad, List.map_cons, List.sum_cons, Nat.add_eq_zero] at *
    rw [ih]
    constructor
    · rintro ⟨h1, h2⟩ g hg l hl
      rcases List.mem_cons.mp hg with hg | hg
      · subst hg
        have := List.countP_eq_zero.mp h1 l hl
        simpa using this
      · exact h2 g hg l hl
    · intro h
      refine ⟨List.countP_eq_zero.mpr (fun l hl => ?_),
        fun g hg l hl => h g (List.mem_cons.mpr (Or.inr hg)) l hl⟩
      simp [h f (List.mem_cons_self f fs) l hl]

/-- C4.  The validator's exit status: 2 when the results root does not
exist; 0 when it exists but no `.jsonl` file is found; 1 when `.jsonl`
files exist and at least one line fails a check; 0 when every line of
every file passes. -/
theorem c4_exit_codes (rootExists : Bool) (allowed : List String)
    (files : List (List PLine)) :
    (rootExists = false → validate_main rootExists allowed files = 2) ∧
    (rootExists = true → files = [] → validate_main rootExists allowed files = 0) ∧
    (rootExists = true → files ≠ [] →
      (∃ f ∈ files, ∃ l ∈ f, lineFails allowed l = true) →
      validate_main rootExists allowed files = 1) ∧
    (rootExists = true → (∀ f ∈ files, ∀ l ∈ f, lineFails allowed l = false) →
      validate_main rootExists allowed files = 0) := by
  refine ⟨?_, ?_, ?_, ?_⟩
  · intro h
    simp [validate_main, h]
  · intro h hf
    simp [validate_main, h, hf]
  · intro h hne hex
    have hb : validatorBad allowed files ≠ 0 := by
      rw [Ne, validatorBad_eq_zero_iff]
      intro hall
      obtain ⟨f, hf, l, hl, hfail⟩ := hex
      rw [hall f hf l hl] at hfail
      cases hfail
    have hfe : files.isEmpty = false := by
      simpa [List.isEmpty_iff] using hne
    simp [validate_main, h, hfe, hb]
  · intro h hall
    have hb : validatorBad allowed files = 0 := (validatorBad_eq_zero_iff allowed files).mpr hall
    rcases files with _ | ⟨f, fs⟩
    · simp [validate_main, h]
    · simp [validate_main, h, hb]

/-- C4 witness: the three exit codes at concrete invocations — a single
malformed line gives 1, a missing root gives 2, a root with no `.jsonl`
files gives 0. -/
theorem c4_witness :
    validate_main true [] [[PLine.malformed]] = 1 ∧
    validate_main false [] [] = 2 ∧
    validate_main true [] [] = 0 :=
  ⟨(c4_exit_codes true [] [[PLine.malformed]]).2.2.1 rfl (by simp)
      ⟨[PLine.malformed], List.mem_cons_self _ _, PLine.malformed,
        List.mem_cons_self _ _, rfl⟩,
    (c4_exit_codes false [] []).1 rfl,
    (c4_exit_codes true [] []).2.1 rfl rfl⟩

/-! ## Claim C3: the empty error label in the ranking -/

theorem lookupCount_bump (c : List (String × Nat)) (lbl l' : String) :
    lookupCount (bump c lbl) l' = lookupCount c l' + (if lbl = l' then 1 else 0) := by
  induction c with
  | nil =>
    by_cases h : lbl = l'
    · simp [bump, lookupCount, List.find?, h]
    · simp [bump, lookupCount, List.find?, beq_eq_false_iff_ne.mpr h, h]
  | cons p rest ih =>
    obtain ⟨l, n⟩ := p
    by_cases h : l = lbl
    · subst h
      by_cases h' : l = l'
      · simp [bump, lookupCount, List.find?, h']
      · simp [bump, lookupCount, List.find?, beq_eq_false_iff_ne.mpr h', h']
    · by_cases h' : l = l'
      · subst h'
        have hne : l ≠ lbl := h
        simp [bump, lookupCount, List.find?, beq_eq_false_iff_ne.mpr hne, Ne.symm hne]
      · have h1 := ih
        simp only [bump, beq_eq_false_iff_ne.mpr h]
        simp only [lookupCount, List.find?, beq_eq_false_iff_ne.mpr h'] at h1 ⊢
        simpa using h1

theorem err_class_empty_iff (s : String) : err_class s = "" ↔ s = "" := by
  constructor
  · intro h
    by_cases h0 : s = ""
    · exact h0
    · exfalso
      have hbe : (s == "") = false := beq_eq_false_iff_ne.mpr h0
      simp only [err_class, hbe, Bool.false_eq_true, if_false] at h
      split_ifs at h <;> simp_all
  · intro h
    rw [h]
    decide

/-- C3.  The claim is false on the code: a counted row whose effective
error text is empty is tallied under the empty label (`errc[""] += 1`),
and that label can be retained by `most_common(3)`.  Concretely, for a
group consisting of the single record `{}`, the counter is `[("", 1)]`
and the retained top-3 list is `[("", 1)]`. -/
theorem c3_counterexample :
    lookupCount (errTally [[]]) "" = 1 ∧
    (mostCommon3 (errTally [[]])).map Prod.fst = [""] := by
  decide

/-- C3 (amended).  For every model group, a counted row (one whose
`syntax_valid_before` is not exactly `True`) with empty effective error
text is tallied under the empty label rather than excluded: the count of
the empty label equals the number of such rows (and by the
counterexample above the empty label can appear among the retained
top-3 error classes). -/
theorem c3_empty_label_tallied (rs : List Row) :
    lookupCount (errTally rs) "" =
      rs.countP (fun r => !beforeIsTrue r && (errText r == "")) := by
  suffices h : ∀ c : List (String × Nat),
      lookupCount
        (rs.foldl (fun c r => if beforeIsTrue r then c
          else bump c (err_class (errText r))) c) "" =
        lookupCount c "" + rs.countP (fun r => !beforeIsTrue r && (errText r == "")) by
    simpa [errTally, lookupCount, List.find?] using h []
  induction rs with
  | nil => simp
  | cons r rest ih =>
    intro c
    simp only [List.foldl_cons, List.countP_cons]
    by_cases hb : beforeIsTrue r
    · rw [if_pos hb, ih c]
      simp [hb]
    · rw [Bool.not_eq_true] at hb
      simp only [hb, Bool.false_eq_true, if_false]
      rw [ih, lookupCount_bump]
      have hif : (if err_class (errText r) = "" then (1 : Nat) else 0) =
          (if (!beforeIsTrue r && (errText r == "")) = true then 1 else 0) := by
        by_cases he : errText r = ""
        · simp [err_class_empty_iff, he, hb]
        · simp [err_class_empty_iff, he, beq_eq_false_iff_ne.mpr he, hb]
      rw [hif]
      simp only [hb, Bool.not_false, Bool.true_and]
      omega

/-! ## Claim C6: repaired-count bounds -/

theorem groupStats_ok_elim {rs : List Row} {st : Stats} (h : groupStats rs = .ok st) :
    st.repaired = rs.countP (fun r => beforeIsFalse r && afterIsTrue r) ∧
    st.syntaxValidAfter = rs.countP afterIsTrue := by
  cases hm : rs.mapM fixCountOf with
  | error e =>
    unfold groupStats at h
    rw [hm] at h
    simp [Bind.bind, Except.bind] at h
  | ok fcs =>
    unfold groupStats at h
    rw [hm] at h
    simp only [Bind.bind, Except.bind, pure, Except.pure, Except.ok.injEq] at h
    subst h
    simp

/-- C6.  For every model group the aggregator computes, the `repaired`
count is at most the number of rows whose `syntax_valid_before` is
exactly `false`, and at most the group's `syntaxValidAfter` count. -/
theorem c6_repaired_bounds (rs : List Row) (st : Stats)
    (h : groupStats rs = .ok st) :
    st.repaired ≤ rs.countP beforeIsFalse ∧ st.repaired ≤ st.syntaxValidAfter := by
  obtain ⟨h1, h2⟩ := groupStats_ok_elim h
  rw [h1, h2]
  constructor
  · exact List.countP_mono_left fun r _ hp => ((Bool.and_eq_true _ _).mp hp).1
  · exact List.countP_mono_left fun r _ hp => ((Bool.and_eq_true _ _).mp hp).2

/-- C6 witness: the theorem applied to the concrete one-row group
(`before` false, `after` true). -/
theorem c6_witness :
    ∃ st, groupStats [[("syntax_valid_before", JVal.jbool false),
        ("syntax_valid_after", JVal.jbool true)]] = .ok st ∧
      st.repaired ≤ List.countP beforeIsFalse
        [[("syntax_valid_before", JVal.jbool false),
          ("syntax_valid_after", JVal.jbool true)]] ∧
      st.repaired ≤ st.syntaxValidAfter := by
  have hm0 : List.mapM fixCountOf [[("syntax_valid_before", JVal.jbool false),
      ("syntax_valid_after", JVal.jbool true)]] = .ok [0] := by rfl
  cases hg : groupStats [[("syntax_valid_before", JVal.jbool false),
      ("syntax_valid_after", JVal.jbool true)]] with
  | error e =>
    unfold groupStats at hg
    rw [hm0] at hg
    simp [Bind.bind, Except.bind, pure, Except.pure] at hg
  | ok st =>
    exact ⟨st, rfl, (c6_repaired_bounds _ _ hg).1, (c6_repaired_bounds _ _ hg).2⟩

/-! ## Claim C2: aggregator exit status -/

theorem mapM_ok_of_forall {α β : Type} (f : α → Except String β) (l : List α)
    (h : ∀ a ∈ l, isError (f a) = false) : ∃ ys, l.mapM f = .ok ys := by
  induction l with
  | nil => exact ⟨[], rfl⟩
  | cons a t ih =>
    obtain ⟨ys, hys⟩ := ih (fun x hx => h x (List.mem_cons.mpr (Or.inr hx)))
    cases hfa : f a with
    | error e =>
      have := h a (List.mem_cons_self a t)
      rw [hfa] at this
      simp [isError] at this
    | ok b =>
      refine ⟨b :: ys, ?_⟩
      rw [List.mapM_cons, hfa, hys]
      rfl

theorem addToGroup_sub {acc : List (String × List Row)} {k : String} {r0 x : Row}
    {g : String × List Row} (hg : g ∈ addToGroup acc k r0) (hx : x ∈ g.2) :
    x = r0 ∨ ∃ g' ∈ acc, x ∈ g'.2 := by
  induction acc with
  | nil =>
    simp [addToGroup] at hg
    subst hg
    simp at hx
    exact Or.inl hx
  | cons p rest ih =>
    obtain ⟨k', rs⟩ := p
    by_cases hk : (k' == k) = true
    · simp only [addToGroup, hk, if_true] at hg
      rcases List.mem_cons.mp hg with hg | hg
      · subst hg
        simp only [List.mem_append] at hx
        rcases hx with hx | hx
        · exact Or.inr ⟨(k', rs), List.mem_cons_self _ _, hx⟩
        · simp at hx
          exact Or.inl hx
      · exact Or.inr ⟨g, List.mem_cons.mpr (Or.inr hg), hx⟩
    · simp only [addToGroup, hk, Bool.false_eq_true, if_false] at hg
      rcases List.mem_cons.mp hg with hg | hg
      · subst hg
        exact Or.inr ⟨(k', rs), List.mem_cons_self _ _, hx⟩
      · rcases ih hg with h1 | ⟨g', hg', hx'⟩
        · exact Or.inl h1
        · exact Or.inr ⟨g', List.mem_cons.mpr (Or.inr hg'), hx'⟩

theorem byModel_foldl_sub (rows : List Row) :
    ∀ (acc : List (String × List Row)) (g : String × List Row) (x : Row),
      g ∈ rows.foldl (fun acc r => addToGroup acc (modelKey r) r) acc → x ∈ g.2 →
      x ∈ rows ∨ ∃ g' ∈ acc, x ∈ g'.2 := by
  induction rows with
  | nil => exact fun acc g x hg hx => Or.inr ⟨g, hg, hx⟩
  | cons r rest ih =>
    intro acc g x hg hx
    rcases ih (addToGroup acc (modelKey r) r) g x hg hx with h1 | ⟨g', hg', hx'⟩
    · exact Or.inl (List.mem_cons.mpr (Or.inr h1))
    · rcases addToGroup_sub hg' hx' with h2 | ⟨g'', hg'', hx''⟩
      · exact Or.inl (List.mem_cons.mpr (Or.inl h2))
      · exact Or.inr ⟨g'', hg'', hx''⟩

theorem mem_rows_of_mem_byModel {rows : List Row} {g : String × List Row} {x : Row}
    (hg : g ∈ byModel rows) (hx : x ∈ g.2) : x ∈ rows := by
  rcases byModel_foldl_sub rows [] g x hg hx with h | ⟨g', hg', _⟩
  · exact h
  · exact absurd hg' (List.not_mem_nil g')

theorem mem_insertStable {le : α → α → Bool} {x y : α} {l : List α} :
    y ∈ insertStable le x l ↔ y = x ∨ y ∈ l := by
  induction l with
  | nil => simp [insertStable]
  | cons z zs ih =>
    by_cases h : le x z
    · simp [insertStable, h, List.mem_cons]
    · simp only [insertStable, h, Bool.false_eq_true, if_false, List.mem_cons, ih]
      tauto

theorem mem_sortStable {le : α → α → Bool} {x : α} {l : List α} :
    x ∈ sortStable le l ↔ x ∈ l := by
  induction l with
  | nil => simp [sortStable]
  | cons y ys ih =>
    simp only [sortStable, mem_insertStable, List.mem_cons, ih]

theorem groupStats_ok_of_forall {rs : List Row}
    (h : ∀ r ∈ rs, isError (fixCountOf r) = false) :
    ∃ st, groupStats rs = .ok st := by
  obtain ⟨fcs, hfcs⟩ := mapM_ok_of_forall fixCountOf rs h
  cases hg : groupStats rs with
  | ok st => exact ⟨st, rfl⟩
  | error e =>
    unfold groupStats at hg
    rw [hfcs] at hg
    simp [Bind.bind, Except.bind, pure, Except.pure] at hg

/-- C2.  The claim is false on the code: a parsed object row whose
`fix_count` is a truthy value `int()` cannot coerce (here the string
`"oops"`) raises an uncaught `ValueError` in the aggregator's
list comprehension, so the interpreter exits with status 1, not 0. -/
theorem c2_counterexample :
    aggregate_exit [PLine.parsed (.jobj [("fix_count", JVal.jstr "oops")])] = 1 := by
  rfl

/-- C2 (amended).  The aggregator completes and exits 0 on every corpus
in which each parsed object row carries a `fix_count` that the `int()`
coercion accepts after the `or 0` falsy fallback (absent, `null`,
`false`, `0`, an integer, a boolean, or an integer-valued string);
malformed lines, non-object lines and arbitrary values of every other
field never abort the run. -/
theorem c2_exit_zero_of_fix_counts (lines : List PLine)
    (h : ∀ r ∈ iter_rows lines, isError (fixCountOf r) = false) :
    aggregate_exit lines = 0 := by
  have hok : ∃ ms, aggregateModels lines = .ok ms := by
    apply mapM_ok_of_forall
    intro g hg
    have hg' : g ∈ byModel (iter_rows lines) := mem_sortStable.mp hg
    have hall : ∀ r ∈ g.2, isError (fixCountOf r) = false :=
      fun r hr => h r (mem_rows_of_mem_byModel hg' hr)
    obtain ⟨st, hst⟩ := groupStats_ok_of_forall hall
    rw [hst]
    rfl
  obtain ⟨ms, hms⟩ := hok
  simp [aggregate_exit, aggregate_main, hms, Except.map]

/-- C2 witness: the amended statement at a concrete one-line corpus. -/
theorem c2_witness :
    (∀ r ∈ iter_rows [PLine.parsed (.jobj [("model", JVal.jstr "m")])],
      isError (fixCountOf r) = false) ∧
    aggregate_exit [PLine.parsed (.jobj [("model", JVal.jstr "m")])] = 0 :=
  ⟨by decide, c2_exit_zero_of_fix_counts [PLine.parsed (.jobj [("model", JVal.jstr "m")])]
      (by decide)⟩

/-! ## Claim C7: display order of the model groups -/

theorem pairwise_insertStable (key : α → Nat) (x : α) (l : List α)
    (hl : l.Pairwise (fun a b => key b ≤ key a)) :
    (insertStable (fun a b => decide (key b ≤ key a)) x l).Pairwise
      (fun a b => key b ≤ key a) := by
  induction l with
  | nil => simp [insertStable]
  | cons y ys ih =>
    rcases List.pairwise_cons.mp hl with ⟨hy, hys⟩
    by_cases h : key y ≤ key x
    · rw [insertStable, if_pos (by simpa using h)]
      refine List.pairwise_cons.mpr ⟨?_, hl⟩
      intro z hz
      rcases List.mem_cons.mp hz with hz | hz
      · exact hz ▸ h
      · exact le_trans (hy z hz) h
    · rw [insertStable, if_neg (by simpa using h)]
      refine List.pairwise_cons.mpr ⟨?_, ih hys⟩
      intro z hz
      rcases mem_insertStable.mp hz with hz | hz
      · subst hz
        omega
      · exact hy z hz

theorem pairwise_sortStable (key : α → Nat) (l : List α) :
    (sortStable (fun a b => decide (key b ≤ key a)) l).Pairwise
      (fun a b => key b ≤ key a) := by
  induction l with
  | nil => simp [sortStable]
  | cons x xs ih => exact pairwise_insertStable key x _ ih

theorem filter_insertStable_eq (key : α → Nat) (x : α) (l : List α) (c : Nat)
    (hx : key x = c) :
    (insertStable (fun a b => decide (key b ≤ key a)) x l).filter
        (fun a => key a == c) =
      x :: l.filter (fun a => key a == c) := by
  induction l with
  | nil => simp [insertStable, hx]
  | cons y ys ih =>
    by_cases h : key y ≤ key x
    · rw [insertStable, if_pos (by simpa using h)]
      simp [hx]
    · rw [insertStable, if_neg (by simpa using h)]
      have hy : ¬ key y = c := by omega
      simp [List.filter_cons, hy, ih]

theorem filter_insertStable_ne (key : α → Nat) (x : α) (l : List α) (c : Nat)
    (hx : ¬ key x = c) :
    (insertStable (fun a b => decide (key b ≤ key a)) x l).filter
        (fun a => key a == c) =
      l.filter (fun a => key a == c) := by
  induction l with
  | nil => simp [insertStable, hx]
  | cons y ys ih =>
    by_cases h : key y ≤ key x
    · rw [insertStable, if_pos (by simpa using h)]
      simp [hx]
    · rw [insertStable, if_neg (by simpa using h)]
      simp only [List.filter_cons, ih]

theorem filter_sortStable (key : α → Nat) (l : List α) (c : Nat) :
    (sortStable (fun a b => decide (key b ≤ key a)) l).filter
        (fun a => key a == c) =
      l.filter (fun a => key a == c) := by
  induction l with
  | nil => simp [sortStable]
  | cons x xs ih =>
    by_cases hx : key x = c
    · rw [sortStable, filter_insertStable_eq key x _ c hx, ih]
      simp [hx]
    · rw [sortStable, filter_insertStable_ne key x _ c hx, ih]
      simp [hx]

theorem addToGroup_keys (acc : List (String × List Row)) (k : String) (r : Row) :
    (addToGroup acc k r).map Prod.fst =
      if k ∈ acc.map Prod.fst then acc.map Prod.fst else acc.map Prod.fst ++ [k] := by
  induction acc with
  | nil => simp [addToGroup]
  | cons p rest ih =>
    obtain ⟨k', rs⟩ := p
    by_cases h : k' = k
    · subst h
      simp [addToGroup]
    · have hb : (k' == k) = false := beq_eq_false_iff_ne.mpr h
      simp only [addToGroup, hb, Bool.false_eq_true, if_false, List.map_cons, ih]
      by_cases hm : k ∈ rest.map Prod.fst
      · have : k ∈ (k', rs).1 :: rest.map Prod.fst := List.mem_cons.mpr (Or.inr hm)
        simp [hm, this]
      · have hnc : ¬ k ∈ (k', rs).1 :: rest.map Prod.fst := by
          intro hk
          rcases List.mem_cons.mp hk with hk | hk
          · exact h hk.symm
          · exact hm hk
        simp [hm, hnc]

theorem byModel_foldl_keys (rows : List Row) :
    ∀ acc : List (String × List Row),
      (rows.foldl (fun acc r => addToGroup acc (modelKey r) r) acc).map Prod.fst =
        acc.map Prod.fst ++ firstSeenAux (acc.map Prod.fst) (rows.map modelKey) := by
  induction rows with
  | nil => simp [firstSeenAux]
  | cons r rest ih =>
    intro acc
    simp only [List.foldl_cons, List.map_cons, firstSeenAux]
    rw [ih (addToGroup acc (modelKey r) r), addToGroup_keys]
    by_cases hm : modelKey r ∈ acc.map Prod.fst
    · simp [hm]
    · simp [hm]

/-- The keys of `by_model` are exactly the distinct model identifiers in
the order they were first encountered while reading the records. -/
theorem byModel_keys_firstSeen (rows : List Row) :
    (byModel rows).map Prod.fst = firstSeen (rows.map modelKey) := by
  have h := byModel_foldl_keys rows []
  simpa [byModel, firstSeen] using h

/-- C7.  The aggregator's group ordering `sorted(by_model.items(),
key=len, reverse=True)`: row counts are non-increasing along the output;
for every count `c` the groups of count `c` appear exactly in their
`by_model` order, which is first-encounter order of the model keys
(Python's sort is stable, also with `reverse=True`, modelled by the
stable insertion sort `sortStable`). -/
theorem c7_group_display_order (lines : List PLine) :
    (sortedGroups (iter_rows lines)).Pairwise (fun a b => b.2.length ≤ a.2.length) ∧
    (∀ c : Nat,
      (sortedGroups (iter_rows lines)).filter (fun g => g.2.length == c) =
        (byModel (iter_rows lines)).filter (fun g => g.2.length == c)) ∧
    (byModel (iter_rows lines)).map Prod.fst =
      firstSeen ((iter_rows lines).map modelKey) :=
  ⟨pairwise_sortStable (fun g => g.2.length) (byModel (iter_rows lines)),
    fun c => filter_sortStable (fun g => g.2.length) (byModel (iter_rows lines)) c,
    byModel_keys_firstSeen (iter_rows lines)⟩

/-! ## Claim C9: one failure message per line, first failing check -/

/-- C9.  For every physical line, the validator prints the message of
the first failing check — in the order: non-object line, extra keys,
banned keys, field-shape checks, error-field type — and nothing when all
checks pass; in particular at most one message is printed and `bad` is
incremented exactly once for a line that violates several checks, the
later checks not being evaluated. -/
theorem c9_first_failure_only (allowed : List String) (l : PLine) :
    lineMessages allowed l = (claimedFirstFailure allowed l).toList := by
  cases l with
  | blank => rfl
  | malformed => rfl
  | parsed v =>
    cases v with
    | jnull => rfl
    | jbool b => rfl
    | jnum n => rfl
    | jstr s => rfl
    | jarr xs => rfl
    | jobj row =>
      cases h1 : checkExtra row allowed with
      | error e =>
        simp [lineMessages, claimedFirstFailure, claimedChecks, validate_row, h1, errOf,
          List.findSome?]
      | ok u1 =>
      cases h2 : checkBanned row with
      | error e =>
        simp [lineMessages, claimedFirstFailure, claimedChecks, validate_row, h1, h2, errOf,
          List.findSome?]
      | ok u2 =>
      cases h3 : checkModel row with
      | error e =>
        simp [lineMessages, claimedFirstFailure, claimedChecks, validate_row, h1, h2, h3,
          errOf, List.findSome?]
      | ok u3 =>
      cases h4 : checkSha row with
      | error e =>
        simp [lineMessages, claimedFirstFailure, claimedChecks, validate_row, h1, h2, h3, h4,
          errOf, List.findSome?]
      | ok u4 =>
      cases h5 : checkBools row with
      | error e =>
        simp [lineMessages, claimedFirstFailure, claimedChecks, validate_row, h1, h2, h3, h4,
          h5, errOf, List.findSome?]
      | ok u5 =>
      cases h6 : checkFixCount row with
      | error e =>
        simp [lineMessages, claimedFirstFailure, claimedChecks, validate_row, h1, h2, h3, h4,
          h5, h6, errOf, List.findSome?]
      | ok u6 =>
      cases h7 : sanitizeErrors row with
      | error e =>
        simp [lineMessages, claimedFirstFailure, claimedChecks, validate_row, h1, h2, h3, h4,
          h5, h6, h7, errOf, List.findSome?]
      | ok r' =>
        simp [lineMessages, claimedFirstFailure, claimedChecks, validate_row, h1, h2, h3, h4,
          h5, h6, h7, errOf, List.findSome?]

/-! ## Claim C10: grouping under the model key -/

theorem addToGroup_self (acc : List (String × List Row)) (k : String) (r : Row) :
    ∃ rs, (k, rs) ∈ addToGroup acc k r ∧ r ∈ rs := by
  induction acc with
  | nil => exact ⟨[r], List.mem_cons_self _ _, List.mem_cons_self _ _⟩
  | cons p rest ih =>
    obtain ⟨k', rs'⟩ := p
    by_cases h : k' = k
    · subst h
      refine ⟨rs' ++ [r], ?_, ?_⟩
      · simp [addToGroup]
      · simp
    · obtain ⟨rs, hmem, hr⟩ := ih
      refine ⟨rs, ?_, hr⟩
      simp only [addToGroup, beq_eq_false_iff_ne.mpr h, Bool.false_eq_true, if_false]
      exact List.mem_cons.mpr (Or.inr hmem)

theorem addToGroup_preserve {acc : List (String × List Row)} {k0 : String} {rs0 : List Row}
    {x : Row} (hmem : (k0, rs0) ∈ acc) (hx : x ∈ rs0) (k : String) (r : Row) :
    ∃ rs', (k0, rs') ∈ addToGroup acc k r ∧ x ∈ rs' := by
  induction acc with
  | nil => exact absurd hmem (List.not_mem_nil _)
  | cons p rest ih =>
    obtain ⟨k', rs'⟩ := p
    by_cases h : k' = k
    · subst h
      rcases List.mem_cons.mp hmem with hm | hm
      · refine ⟨rs' ++ [r], ?_, ?_⟩
        · simp only [addToGroup, beq_self_eq_true, if_true]
          rw [show k0 = k' from congrArg Prod.fst hm]
          exact List.mem_cons_self _ _
        · rw [show rs0 = rs' from congrArg Prod.snd hm] at hx
          exact List.mem_append.mpr (Or.inl hx)
      · refine ⟨rs0, ?_, hx⟩
        simp only [addToGroup, beq_self_eq_true, if_true]
        exact List.mem_cons.mpr (Or.inr hm)
    · rcases List.mem_cons.mp hmem with hm | hm
      · refine ⟨rs0, ?_, hx⟩
        simp only [addToGroup, beq_eq_false_iff_ne.mpr h, Bool.false_eq_true, if_false]
        exact hm ▸ List.mem_cons_self _ _
      · obtain ⟨rs'', hmem'', hx''⟩ := ih hm
        refine ⟨rs'', ?_, hx''⟩
        simp only [addToGroup, beq_eq_false_iff_ne.mpr h, Bool.false_eq_true, if_false]
        exact List.mem_cons.mpr (Or.inr hmem'')

theorem byModel_contains (rows : List Row) :
    ∀ (acc : List (String × List Row)) (r : Row),
      (r ∈ rows ∨ ∃ rs, (modelKey r, rs) ∈ acc ∧ r ∈ rs) →
      ∃ rs, (modelKey r, rs) ∈
          rows.foldl (fun acc r => addToGroup acc (modelKey r) r) acc ∧ r ∈ rs := by
  induction rows with
  | nil =>
    intro acc r hyp
    rcases hyp with h | h
    · exact absurd h (List.not_mem_nil r)
    · exact h
  | cons r0 rest ih =>
    intro acc r hyp
    apply ih (addToGroup acc (modelKey r0) r0) r
    rcases hyp with h | ⟨rs0, hmem, hx⟩
    · rcases List.mem_cons.mp h with h | h
      · subst h
        exact Or.inr (addToGroup_self acc (modelKey r) r)
      · exact Or.inl h
    · exact Or.inr (addToGroup_preserve hmem hx (modelKey r0) r0)

theorem mem_byModel_self {rows : List Row} {r : Row} (h : r ∈ rows) :
    ∃ rs, (modelKey r, rs) ∈ byModel rows ∧ r ∈ rs :=
  byModel_contains rows [] r (Or.inl h)

/-- C10.  A record whose `model` field is present but falsy (empty
string, `false`, `0` — and likewise missing or `null`) is grouped under
the literal key `"unknown"`; a record with a truthy `model` value is
grouped under `str()` of that value.  In both cases the record lands in
the group of its computed key. -/
theorem c10_model_key_grouping (rows : List Row) (r : Row) (h : r ∈ rows) :
    (pyTruthy (pyGet r "model") = false → modelKey r = "unknown") ∧
    (pyTruthy (pyGet r "model") = true → modelKey r = pyStr (pyGet r "model")) ∧
    ∃ rs, (modelKey r, rs) ∈ byModel rows ∧ r ∈ rs := by
  refine ⟨?_, ?_, mem_byModel_self h⟩
  · intro hf
    simp [modelKey, pyOr, hf, pyStr]
  · intro ht
    simp [modelKey, pyOr, ht]

/-- C10 witness: the record `{"model": 0}` — present but falsy — lands
in the `"unknown"` group of a concrete two-record corpus. -/
theorem c10_witness :
    ([("model", JVal.jnum 0)] : Row) ∈
      ([[("model", JVal.jnum 0)], [("model", JVal.jstr "m")]] : List Row) ∧
    pyTruthy (pyGet [("model", JVal.jnum 0)] "model") = false ∧
    modelKey [("model", JVal.jnum 0)] = "unknown" ∧
    ∃ rs, ("unknown", rs) ∈
        byModel [[("model", JVal.jnum 0)], [("model", JVal.jstr "m")]] ∧
      ([("model", JVal.jnum 0)] : Row) ∈ rs := by
  have hmem : ([("model", JVal.jnum 0)] : Row) ∈
      ([[("model", JVal.jnum 0)], [("model", JVal.jstr "m")]] : List Row) :=
    List.mem_cons_self _ _
  have h := c10_model_key_grouping _ _ hmem
  have hf : pyTruthy (pyGet [("model", JVal.jnum 0)] "model") = false := by decide
  have h3 := h.2.2
  rw [h.1 hf] at h3
  exact ⟨hmem, hf, h.1 hf, h3⟩

/-! ## Claim C8: err_class is deterministic and first-match-wins -/

/-- C8.  `err_class` is a function of its input (determinism), and on
every string containing `"IndentationError"` as a substring it returns
`"IndentationError"`, whether or not `"SyntaxError"` also occurs: the
`IndentationError` branch is tested first. -/
theorem c8_indentation_first (s : String)
    (h : containsSub s "IndentationError" = true) :
    err_class s = "IndentationError" := by
  have hs : ¬ s = "" := by
    intro he
    rw [he] at h
    exact absurd h (by decide)
  have hbe : (s == "") = false := beq_eq_false_iff_ne.mpr hs
  simp [err_class, hbe, h]

/-- C8 witness: a string containing both `"IndentationError"` and
`"SyntaxError"` classifies as `"IndentationError"`. -/
theorem c8_witness :
    containsSub "x IndentationError then SyntaxError" "IndentationError" = true ∧
    containsSub "x IndentationError then SyntaxError" "SyntaxError" = true ∧
    err_class "x IndentationError then SyntaxError" = "IndentationError" :=
  ⟨by decide, by decide,
    c8_indentation_first "x IndentationError then SyntaxError" (by decide)⟩

end Snakebite
